import Mathlib

/-!
Verification of the `degenproto_engine` core: the Router Assembler
(`src/router_jsx.rs`) and the View Compiler (`src/view_jsx.rs`,
`src/view_proto.rs`), shallowly embedded in Lean 4.

Rust `HashMap`/`HashSet` values are modelled as association lists / lists
with keyed insert semantics (insert overwrites, set-insert is idempotent);
all the properties proved below are independent of the unspecified Rust
iteration order.  `format!("{}{}", base, counter)` renders `counter` in
decimal; `natRepr` below is that decimal rendering, defined with a fuel
argument so that it is structurally recursive and kernel-reducible.
-/

namespace Degen

/-- Decimal digit characters of `n`, most significant first; `fuel` bounds the
recursion depth (any `fuel > n` gives the true decimal representation). -/
def natReprAux : Nat → Nat → List Char
  | 0, _ => []
  | fuel + 1, n =>
    if n < 10 then [Nat.digitChar n]
    else natReprAux fuel (n / 10) ++ [Nat.digitChar (n % 10)]

/-- Decimal string representation of a natural number (the rendering used by
Rust's `format!("{}", counter)` for a nonnegative integer). -/
def natRepr (n : Nat) : String :=
  ⟨natReprAux (n + 1) n⟩

/-! ### Router Assembler data model (`src/lib.rs`) -/

structure Layout where
  name : String
  path : String
deriving DecidableEq

structure Route where
  name : String
  url : String
  proto : Option String
  path : String
  layout : Option String
deriving DecidableEq

structure RouterJsx where
  layouts : List Layout
  routes : List Route
deriving DecidableEq

/-- `ImportMap` of `router_jsx.rs`: `path_to_name : HashMap<String, String>`
modelled as an association list, `used_names : HashSet<String>` as a list. -/
structure ImportMap where
  path_to_name : List (String × String)
  used_names : List String
deriving DecidableEq

def ImportMap.empty : ImportMap := ⟨[], []⟩

def ImportMap.get (m : ImportMap) (path : String) : Option String :=
  m.path_to_name.lookup path

/-- `capitalize` of `router_jsx.rs` (`char::to_uppercase` modelled as
single-character ASCII uppercasing, which the claims do not distinguish). -/
def capitalize (s : String) : String :=
  match s.data with
  | [] => ""
  | c :: cs => ⟨c.toUpper :: cs⟩

/-- The probing loop of `ImportMap::unique_name`: try `base ++ natRepr c`,
`base ++ natRepr (c+1)`, … until a candidate is not in `used`.  The source
loop is unbounded; `fuel` makes the recursion structural, and
`probe_fuel_sufficient` below shows that `used.length + 1` trials always
find a free candidate, so the fuel never runs out on the calls made by
`unique_name`. -/
def probe (used : List String) (base : String) : Nat → Nat → String
  | 0, c => base ++ natRepr c
  | fuel + 1, c =>
    if used.contains (base ++ natRepr c) then probe used base fuel (c + 1)
    else base ++ natRepr c

/-- `ImportMap.unique_name`: return `base` if unused, else the first unused
`base ++ natRepr k` for `k = 2, 3, …`. -/
def unique_name (used : List String) (base : String) : String :=
  if used.contains base then probe used base (used.length + 1) 2
  else base

/-- `ImportMap::add_layout`: reuse the name already assigned to this path, or
assign a fresh unique name derived from `capitalize(name) ++ "Layout"`. -/
def ImportMap.add_layout (m : ImportMap) (l : Layout) : String × ImportMap :=
  match m.path_to_name.lookup l.path with
  | some name => (name, m)
  | none =>
    let base := capitalize l.name ++ "Layout"
    let name := unique_name m.used_names base
    (name, ⟨(l.path, name) :: m.path_to_name, name :: m.used_names⟩)

/-- `ImportMap::add_route`: like `add_layout`, with base name `capitalize(name)`. -/
def ImportMap.add_route (m : ImportMap) (r : Route) : String × ImportMap :=
  match m.path_to_name.lookup r.path with
  | some name => (name, m)
  | none =>
    let base := capitalize r.name
    let name := unique_name m.used_names base
    (name, ⟨(r.path, name) :: m.path_to_name, name :: m.used_names⟩)

/-- The registration phase of `RouterJsx::to_string` (lines 80–86): all layouts
then all routes are added to the import map before anything is rendered. -/
def register_all (rt : RouterJsx) : ImportMap :=
  let m1 := rt.layouts.foldl (fun m l => (m.add_layout l).2) ImportMap.empty
  rt.routes.foldl (fun m r => (m.add_route r).2) m1

/-- One entry of the registration pass of `RouterJsx::to_string` (lines
80–86): the pass walks all layouts, then all routes, in source order. -/
inductive RegEntry where
  | layout (l : Layout)
  | route (r : Route)
deriving DecidableEq

def RegEntry.path : RegEntry → String
  | .layout l => l.path
  | .route r => r.path

/-- The candidate base name of an entry: `capitalize(name) ++ "Layout"` for a
layout (line 28), `capitalize(name)` for a route (line 40). -/
def RegEntry.base : RegEntry → String
  | .layout l => capitalize l.name ++ "Layout"
  | .route r => capitalize r.name

def ImportMap.add_entry (m : ImportMap) : RegEntry → String × ImportMap
  | .layout l => m.add_layout l
  | .route r => m.add_route r

/-- Running the registration pass over a suffix of entries from an
intermediate map state. -/
def register_from (m : ImportMap) (es : List RegEntry) : ImportMap :=
  es.foldl (fun m e => (m.add_entry e).2) m

/-- The full registration sequence of a route table: all layouts, then all
routes (`register_all_eq_register_from` shows `register_all` folds it). -/
def reg_entries (rt : RouterJsx) : List RegEntry :=
  rt.layouts.map RegEntry.layout ++ rt.routes.map RegEntry.route

/-- `Option::unwrap` on the name lookups; the `none` case is dead code
(theorem `c9_render_lookups_total`). -/
def unwrapName (o : Option String) : String := o.getD ""

def import_line (e : String × String) : String :=
  "import " ++ e.1 ++ " from \"../" ++ e.2 ++ "\";\n"

/-- The (identifier, path) pairs emitted by the layout-import loop
(lines 92–99), one per layout, in layout order. -/
def layout_import_entries (m : ImportMap) (layouts : List Layout) : List (String × String) :=
  layouts.map (fun l => (unwrapName (m.get l.path), l.path))

/-- The (identifier, path) pairs emitted by the view-import loop
(lines 104–117): one per distinct route path, first occurrence wins, with
`seen` the set of already-imported route paths. -/
def route_import_entries (m : ImportMap) : List Route → List String → List (String × String)
  | [], _ => []
  | r :: rs, seen =>
    if seen.contains r.path then route_import_entries m rs seen
    else (unwrapName (m.get r.path), r.path) :: route_import_entries m rs (r.path :: seen)

def all_import_entries (rt : RouterJsx) : List (String × String) :=
  layout_import_entries (register_all rt) rt.layouts
    ++ route_import_entries (register_all rt) rt.routes []

/-- `layout_routes.entry(layout).or_default().push(route)` (line 126): append
`r` to the group keyed `k`, creating the group if absent. -/
def add_grouped : List (String × List Route) → String → Route → List (String × List Route)
  | [], k, r => [(k, [r])]
  | (k', rs) :: t, k, r =>
    if k' == k then (k', rs ++ [r]) :: t else (k', rs) :: add_grouped t k r

/-- One step of the grouping loop (lines 124–130). -/
def group_step (acc : List (String × List Route) × List Route) (r : Route) :
    List (String × List Route) × List Route :=
  match r.layout with
  | some k => (add_grouped acc.1 k r, acc.2)
  | none => (acc.1, acc.2 ++ [r])

/-- The grouping loop: `(layout_routes, no_layout_routes)`. -/
def group_routes (routes : List Route) : List (String × List Route) × List Route :=
  routes.foldl group_step ([], [])

/-- The layout groups actually rendered (lines 135–154): one per layout, in
layout order, for layouts whose name has a group. -/
def rendered_groups (rt : RouterJsx) : List (Layout × List Route) :=
  rt.layouts.filterMap
    (fun l => ((group_routes rt.routes).1.lookup l.name).map (fun rs => (l, rs)))

/-- The trailing ungrouped routes (lines 157–164). -/
def ungrouped (rt : RouterJsx) : List Route := (group_routes rt.routes).2

def child_route_string (m : ImportMap) (r : Route) : String :=
  "        \x7b\n          path: \"" ++ r.url ++ "\",\n          element: <"
    ++ unwrapName (m.get r.path) ++ " />,\n        \x7d,\n"

def group_string (m : ImportMap) (g : Layout × List Route) : String :=
  "    \x7b\n      path: \"/\",\n      element: <" ++ unwrapName (m.get g.1.path)
    ++ " />,\n      children: [\n"
    ++ String.join (g.2.map (child_route_string m))
    ++ "      ],\n    \x7d,\n"

def single_route_string (m : ImportMap) (r : Route) : String :=
  "    \x7b\n      path: \"" ++ r.url ++ "\",\n      element: <"
    ++ unwrapName (m.get r.path) ++ " />,\n    \x7d,\n"

/-- `RouterJsx::to_string` (lines 75–180). -/
def RouterJsx.to_string (rt : RouterJsx) : String :=
  let m := register_all rt
  let imports :=
    "import \x7b useRoutes \x7d from \"react-router-dom\";\n"
      ++ String.join ((layout_import_entries m rt.layouts).map import_line)
      ++ "\n"
      ++ String.join ((route_import_entries m rt.routes []).map import_line)
  let route_elements :=
    "  const routes = [\n"
      ++ String.join ((rendered_groups rt).map (group_string m))
      ++ String.join ((ungrouped rt).map (single_route_string m))
      ++ "  ];\n"
  imports ++ "\nfunction Router() \x7b\n" ++ route_elements
    ++ "\n  return useRoutes(routes);\n\x7d\n\nexport default Router;\n"

/-! ### View Compiler data model (`src/view_proto.rs`) -/

/-- `PropValue`.  The source's `Num(f64)` payload is modelled with `Int`: this
core never computes with the number, it only renders it into the output. -/
inductive PropValue where
  | str (s : String)
  | num (n : Int)
  | bool (b : Bool)
  | var (name : String)
  | asset (name : String)
  | content (name : String)
  | contentField (name : String)
deriving DecidableEq

/-- `Element`; `props: HashMap<String, PropValue>` is modelled as an
association list with unique keys. -/
inductive Element where
  | text (s : String)
  | node (tag : String) (class_name : Option String)
      (props : List (String × PropValue)) (children : List Element)
  | componentRef (component : String)
      (props : List (String × PropValue)) (children : List Element)
  | contentList (source : String) (template : Element)

structure ComponentDef where
  name : String
  tag : String
  class_name : Option String
  default_props : List (String × PropValue)
  required_props : List String
  children_template : Option Element
  import_path : Option String

structure ComponentDefs where
  components : List ComponentDef

/-- `ComponentDefs::get`: first component with the given name. -/
def ComponentDefs.get (d : ComponentDefs) (name : String) : Option ComponentDef :=
  d.components.find? (fun c => c.name == name)

inductive AssetKind where
  | image
  | youtube
  | video
  | audio
deriving DecidableEq

structure AssetDef where
  name : String
  kind : AssetKind
  path : Option String
  url : Option String
deriving DecidableEq

structure AssetDefs where
  assets : List AssetDef
deriving DecidableEq

def AssetDefs.get (d : AssetDefs) (name : String) : Option AssetDef :=
  d.assets.find? (fun a => a.name == name)

inductive ContentValue where
  | str (s : String)
  | record (fields : List (String × String))
  | list (items : List ContentValue)

/-- `ContentDefs`: `content: HashMap<String, ContentValue>`. -/
structure ContentDefs where
  content : List (String × ContentValue)

def ContentDefs.get (d : ContentDefs) (name : String) : Option ContentValue :=
  d.content.lookup name

def ContentDefs.get_str (d : ContentDefs) (name : String) : Option String :=
  match d.content.lookup name with
  | some (.str s) => some s
  | _ => none

def ContentDefs.get_list (d : ContentDefs) (name : String) : Option (List ContentValue) :=
  match d.content.lookup name with
  | some (.list l) => some l
  | _ => none

inductive ImportKind where
  | component
  | asset
  | hook
deriving DecidableEq

structure Import where
  name : String
  path : String
  kind : ImportKind
deriving DecidableEq

structure ViewProto where
  name : String
  imports : List Import
  observer : Bool
  tree : Element

structure ViewJsx where
  proto : ViewProto
  component_defs : ComponentDefs
  asset_defs : AssetDefs
  content_defs : ContentDefs

/-! ### View Compiler (`src/view_jsx.rs`) -/

/-- `str::starts_with`, as a character-list check. -/
def charsLead : List Char → List Char → Bool
  | [], _ => true
  | _ :: _, [] => false
  | p :: ps, c :: cs => p == c && charsLead ps cs

def startsWith (s pat : String) : Bool := charsLead pat.data s.data

/-- `" ".repeat(n)`. -/
def spaces (n : Nat) : String := ⟨List.replicate n ' '⟩

/-- `HashMap::insert` on the association-list model: overwrite the existing
binding in place, else append. -/
def insertProp (m : List (String × PropValue)) (k : String) (v : PropValue) :
    List (String × PropValue) :=
  if m.any (fun e => e.1 == k) then m.map (fun e => if e.1 == k then (k, v) else e)
  else m ++ [(k, v)]

/-- Lines 148–151 of `view_jsx.rs`: clone `default_props`, then insert every
call-site prop (call-site wins). -/
def merge_props (dflt props : List (String × PropValue)) : List (String × PropValue) :=
  props.foldl (fun m kv => insertProp m kv.1 kv.2) dflt

/-- `HashSet::insert` on the list model. -/
def hsInsert (s : List String) (x : String) : List String :=
  if s.contains x then s else s ++ [x]

/-- The `props.values()` scan of `collect_refs_recursive`: add every
`PropValue::Asset` name to the asset set. -/
def collect_props_assets (assets : List String) (props : List (String × PropValue)) :
    List String :=
  props.foldl (fun acc kv => match kv.2 with | .asset n => hsInsert acc n | _ => acc) assets

mutual

/-- `ViewJsx::collect_refs_recursive` with its two `&mut HashSet` accumulators
`(assets, components)` threaded explicitly. -/
def collect_refs : Element → List String × List String → List String × List String
  | .text _, acc => acc
  | .node _ _ props children, acc =>
    collect_refs_list children (collect_props_assets acc.1 props, acc.2)
  | .componentRef component props children, acc =>
    collect_refs_list children (collect_props_assets acc.1 props, hsInsert acc.2 component)
  | .contentList _ template, acc => collect_refs template acc

def collect_refs_list : List Element → List String × List String → List String × List String
  | [], acc => acc
  | e :: es, acc => collect_refs_list es (collect_refs e acc)

end

def collect_asset_refs (tree : Element) : List String := (collect_refs tree ([], [])).1

def collect_component_refs (tree : Element) : List String := (collect_refs tree ([], [])).2

mutual

/-- Specification-side multiset of asset names referenced anywhere in a tree
(duplicates kept); used to state what `collect_asset_refs` deduplicates. -/
def asset_refs : Element → List String
  | .text _ => []
  | .node _ _ props children =>
    props.filterMap (fun kv => match kv.2 with | .asset n => some n | _ => none)
      ++ asset_refs_list children
  | .componentRef _ props children =>
    props.filterMap (fun kv => match kv.2 with | .asset n => some n | _ => none)
      ++ asset_refs_list children
  | .contentList _ template => asset_refs template

def asset_refs_list : List Element → List String
  | [] => []
  | e :: es => asset_refs e ++ asset_refs_list es

end

/-- `ViewJsx::render_prop` (lines 238–309). -/
def render_prop (v : ViewJsx) (key : String) (value : PropValue)
    (record_ctx : Option (List (String × String))) : String :=
  match value with
  | .str s => key ++ "=\"" ++ s ++ "\""
  | .num n => key ++ "=\x7b" ++ toString n ++ "\x7d"
  | .bool b => if b then key else key ++ "=\x7bfalse\x7d"
  | .var name => key ++ "=\x7b" ++ name ++ "\x7d"
  | .asset aname =>
    match v.asset_defs.get aname with
    | some a =>
      match a.kind with
      | .image =>
        match a.path with
        | some p =>
          if startsWith p "http://" || startsWith p "https://" then
            key ++ "=\"" ++ p ++ "\""
          else key ++ "=\x7b" ++ aname ++ "\x7d"
        | none => key ++ "=\x7b" ++ aname ++ "\x7d"
      | _ =>
        match a.url with
        | some u => key ++ "=\"" ++ u ++ "\""
        | none => key ++ "=\"\""
    | none => key ++ "=\x7b" ++ aname ++ "\x7d"
  | .content cname =>
    match v.content_defs.get_str cname with
    | some t => key ++ "=\"" ++ t ++ "\""
    | none => key ++ "=\"\""
  | .contentField fname =>
    match record_ctx with
    | some record =>
      match record.lookup fname with
      | some val => key ++ "=\"" ++ val ++ "\""
      | none => key ++ "=\"\""
    | none => key ++ "=\"\""

/-- `ViewJsx::prop_value_to_string` (lines 311–349). -/
def prop_value_to_string (v : ViewJsx) (value : PropValue)
    (record_ctx : Option (List (String × String))) : String :=
  match value with
  | .str s => s
  | .num n => toString n
  | .bool b => toString b
  | .var name => "\x7b" ++ name ++ "\x7d"
  | .asset aname =>
    match v.asset_defs.get aname with
    | some a =>
      match a.kind with
      | .image =>
        match a.path with
        | some p =>
          if startsWith p "http://" || startsWith p "https://" then p
          else "\x7b" ++ aname ++ "\x7d"
        | none => "\x7b" ++ aname ++ "\x7d"
      | _ => match a.url with | some u => u | none => ""
    | none => "\x7b" ++ aname ++ "\x7d"
  | .content cname =>
    match v.content_defs.get_str cname with
    | some s => s
    | none => ""
  | .contentField fname =>
    match record_ctx with
    | some record => match record.lookup fname with | some s => s | none => ""
    | none => ""

mutual

/-- `ViewJsx::render_element` (lines 133–175). -/
def render_element (v : ViewJsx) : Element → Nat → Option (List (String × String)) → String
  | .text s, ind, _ => spaces ind ++ s ++ "\n"
  | .node tag class_name props children, ind, ctx =>
    render_node v tag class_name props children ind ctx
  | .componentRef component props children, ind, ctx =>
    match v.component_defs.get component with
    | some cd =>
      render_node v cd.tag cd.class_name (merge_props cd.default_props props) children ind ctx
    | none => render_node v component none props children ind ctx
  | .contentList source template, ind, ctx =>
    match v.content_defs.get_list source with
    | some l => render_records v template ind l
    | none => ""

/-- `ViewJsx::render_node` (lines 177–236). -/
def render_node (v : ViewJsx) (tag : String) (class_name : Option String)
    (props : List (String × PropValue)) (children : List Element) (ind : Nat)
    (ctx : Option (List (String × String))) : String :=
  let indent_str := spaces ind
  let opening := indent_str ++ "<" ++ tag
  let cls :=
    match class_name with
    | some cn =>
      if props.any (fun kv => kv.1 == "className") then ""
      else " className=\"" ++ cn ++ "\""
    | none => ""
  let attrs := String.join (props.filterMap (fun kv =>
    if kv.1 == "text" then none else some (" " ++ render_prop v kv.1 kv.2 ctx)))
  let text_content := (props.lookup "text").map (fun pv => prop_value_to_string v pv ctx)
  let has_children := (!children.isEmpty) || text_content.isSome
  if has_children then
    opening ++ cls ++ attrs ++ ">\n"
      ++ (match text_content with
          | some t => spaces (ind + 2) ++ t ++ "\n"
          | none => "")
      ++ render_children v children (ind + 2) ctx
      ++ indent_str ++ "</" ++ tag ++ ">\n"
  else
    opening ++ cls ++ attrs ++ " />\n"

def render_children (v : ViewJsx) : List Element → Nat → Option (List (String × String)) → String
  | [], _, _ => ""
  | e :: es, ind, ctx => render_element v e ind ctx ++ render_children v es ind ctx

/-- The `ContentList` loop (lines 165–171): render the template once per
`Record` member, skipping other members. -/
def render_records (v : ViewJsx) (template : Element) (ind : Nat) : List ContentValue → String
  | [] => ""
  | .record r :: rest => render_element v template ind (some r) ++ render_records v template ind rest
  | _ :: rest => render_records v template ind rest

end

/-- The body of the asset-import loop of `ViewJsx::to_string` (lines 36–47)
for one referenced name: `some (name, path)` exactly when the name resolves
to an `Image` asset with a local (non-`http(s)`) path. -/
def asset_import_entry? (v : ViewJsx) (aname : String) : Option (String × String) :=
  match v.asset_defs.get aname with
  | some a =>
    match a.kind with
    | .image =>
      match a.path with
      | some p =>
        if startsWith p "http://" || startsWith p "https://" then none
        else some (aname, p)
      | none => none
    | _ => none
  | none => none

/-- The asset-import loop of `ViewJsx::to_string` (lines 36–47), as the
(name, path) pairs of the emitted import lines. -/
def asset_import_entries (v : ViewJsx) : List (String × String) :=
  (collect_asset_refs v.proto.tree).filterMap (asset_import_entry? v)

def asset_import_line (e : String × String) : String :=
  "import " ++ e.1 ++ " from '" ++ e.2 ++ "';\n"

/-- The component-import loop of `ViewJsx::to_string` (lines 50–56). -/
def component_import_lines (v : ViewJsx) : List String :=
  (collect_component_refs v.proto.tree).filterMap (fun cname =>
    match v.component_defs.get cname with
    | some cd =>
      match cd.import_path with
      | some ip => some ("import " ++ cd.tag ++ " from '" ++ ip ++ "';\n")
      | none => none
    | none => none)

/-- `ViewJsx::to_string` (lines 16–84). -/
def ViewJsx.to_string (v : ViewJsx) : String :=
  "import React from 'react';\n"
    ++ (if v.proto.observer then "import \x7b observer \x7d from \"mobx-react\";\n" else "")
    ++ "\n"
    ++ String.join ((asset_import_entries v).map asset_import_line)
    ++ String.join (component_import_lines v)
    ++ String.join (v.proto.imports.map (fun i => "import " ++ i.name ++ " from '" ++ i.path ++ "';\n"))
    ++ "\n"
    ++ "function " ++ v.proto.name ++ "() \x7b\n"
    ++ "  return (\n"
    ++ render_element v v.proto.tree 4 none
    ++ "  );\n"
    ++ "\x7d\n\n"
    ++ (if v.proto.observer then "export default observer(" ++ v.proto.name ++ ");\n"
        else "export default " ++ v.proto.name ++ ";\n")

/-! ### Concrete inputs used by witnesses and counterexamples -/

/-- A route table in which a layout and a route share the file path
`"shared/Comp"`. -/
def rtShared : RouterJsx :=
  ⟨[⟨"main", "shared/Comp"⟩], [⟨"home", "/", none, "shared/Comp", none⟩]⟩

/-- A route table with two layouts that share the name `"a"`. -/
def rtDupName : RouterJsx :=
  ⟨[⟨"a", "p1"⟩, ⟨"a", "p2"⟩], [⟨"r", "/", none, "q", some "a"⟩]⟩

/-- A well-formed route table: distinct layout names, one grouped route, one
ungrouped route, one layout referenced by no route. -/
def rtMain : RouterJsx :=
  ⟨[⟨"main", "layouts/Main"⟩, ⟨"other", "layouts/Other"⟩],
   [⟨"home", "/", none, "views/Home", some "main"⟩,
    ⟨"free", "/free", none, "views/Free", none⟩]⟩

/-- A route table with a route naming a nonexistent layout. -/
def rtOrphan : RouterJsx :=
  ⟨[⟨"main", "layouts/Main"⟩], [⟨"lost", "/x", none, "views/Lost", some "ghost"⟩]⟩

/-- A route table whose registration sequence holds a layout and a later
route with the same candidate base name `HomeLayout`, separated by an
unrelated route. -/
def rtHomeClash : RouterJsx :=
  ⟨[⟨"home", "layouts/Home"⟩],
   [⟨"about", "/a", none, "views/About", none⟩,
    ⟨"homeLayout", "/h", none, "views/HomeL", none⟩]⟩

/-- The two clashing entries of `rtHomeClash` and the entries registered
between them. -/
def e1Clash : RegEntry := .layout ⟨"home", "layouts/Home"⟩

def e2Clash : RegEntry := .route ⟨"homeLayout", "/h", none, "views/HomeL", none⟩

def midClash : List RegEntry := [.route ⟨"about", "/a", none, "views/About", none⟩]

/-- The import-map state right before `e2Clash` is registered. -/
def m2Clash : ImportMap := register_from ((ImportMap.empty.add_entry e1Clash).2) midClash

/-- A page whose tree is a `ComponentRef` to a defined component, overriding
one of its default props. -/
def vBtn : ViewJsx :=
  ⟨⟨"Page", [], false, .componentRef "btn" [("size", .num 5)] []⟩,
   ⟨[⟨"btn", "Button", some "btn-cls", [("size", .num 3), ("color", .str "red")],
      [], none, none⟩]⟩,
   ⟨[]⟩, ⟨[]⟩⟩

/-- A page referencing the local image `"logo"` from two different nodes, an
external-URL image, a Youtube asset and an unresolved asset name. -/
def vAssets : ViewJsx :=
  ⟨⟨"Page", [], false,
    .node "div" none [("a", .asset "logo")]
      [.node "img" none
        [("b", .asset "logo"), ("c", .asset "ext"), ("d", .asset "tube"),
         ("e", .asset "ghost")] []]⟩,
   ⟨[]⟩,
   ⟨[⟨"logo", .image, some "img/logo.png", none⟩,
     ⟨"ext", .image, some "https://x/y.png", none⟩,
     ⟨"tube", .youtube, none, some "https://youtu.be/x"⟩]⟩,
   ⟨[]⟩⟩

/-- A page with a `ContentList` over a list containing two records and one
non-record member, plus a non-list content entry. -/
def vItems : ViewJsx :=
  ⟨⟨"Page", [], false,
    .contentList "items" (.node "li" none [("text", .contentField "t")] [])⟩,
   ⟨[]⟩, ⟨[]⟩,
   ⟨[("items", .list [.record [("t", "a")], .str "x", .record [("t", "b")]]),
     ("plain", .str "hello")]⟩⟩

/-- A page whose tree is a `ComponentRef` to an unknown component. -/
def vUnknown : ViewJsx :=
  ⟨⟨"Page", [], false, .componentRef "Widget" [("x", .num 1)] []⟩,
   ⟨[⟨"btn", "Button", none, [], [], none, none⟩]⟩, ⟨[]⟩, ⟨[]⟩⟩

/-! ### Proofs -/

theorem natReprAux_fuel_eq (f g n : Nat) (hf : n < f) (hg : n < g) :
    natReprAux f n = natReprAux g n := by
  induction f generalizing g n with
  | zero => omega
  | succ f ih =>
    cases g with
    | zero => omega
    | succ g =>
      by_cases h10 : n < 10
      · simp [natReprAux, h10]
      · have hd : n / 10 < n := Nat.div_lt_self (by omega) (by omega)
        simp only [natReprAux, if_neg h10]
        rw [ih g (n / 10) (by omega) (by omega)]

theorem natReprAux_small {n : Nat} (h : n < 10) :
    natReprAux (n + 1) n = [Nat.digitChar n] := by
  simp [natReprAux, h]

theorem natReprAux_large {n : Nat} (h : 10 ≤ n) :
    natReprAux (n + 1) n = natReprAux (n / 10 + 1) (n / 10) ++ [Nat.digitChar (n % 10)] := by
  have hd : n / 10 < n := Nat.div_lt_self (by omega) (by omega)
  have hstep : natReprAux (n + 1) n =
      if n < 10 then [Nat.digitChar n]
      else natReprAux n (n / 10) ++ [Nat.digitChar (n % 10)] := rfl
  rw [hstep, if_neg (by omega : ¬ n < 10),
    natReprAux_fuel_eq n (n / 10 + 1) (n / 10) (by omega) (by omega)]

theorem digitChar_inj {a b : Nat} (ha : a < 10) (hb : b < 10)
    (h : Nat.digitChar a = Nat.digitChar b) : a = b := by
  interval_cases a <;> interval_cases b <;> simp_all [Nat.digitChar]

theorem natReprAux_ne_nil (n : Nat) : natReprAux (n + 1) n ≠ [] := by
  by_cases h : n < 10
  · rw [natReprAux_small h]; simp
  · rw [natReprAux_large (by omega)]; simp

theorem natReprAux_inj : ∀ a b : Nat,
    natReprAux (a + 1) a = natReprAux (b + 1) b → a = b := by
  intro a
  induction a using Nat.strong_induction_on with
  | _ a ih =>
    intro b h
    by_cases ha : a < 10 <;> by_cases hb : b < 10
    · rw [natReprAux_small ha, natReprAux_small hb] at h
      exact digitChar_inj ha hb (by simpa using h)
    · rw [natReprAux_small ha, natReprAux_large (show (10:Nat) ≤ b by omega)] at h
      have hlen := congrArg List.length h
      rw [List.length_append] at hlen
      simp only [List.length_cons, List.length_nil] at hlen
      have h0 : natReprAux (b / 10 + 1) (b / 10) = [] :=
        List.length_eq_zero.mp (by omega)
      exact absurd h0 (natReprAux_ne_nil _)
    · rw [natReprAux_large (show (10:Nat) ≤ a by omega), natReprAux_small hb] at h
      have hlen := congrArg List.length h
      rw [List.length_append] at hlen
      simp only [List.length_cons, List.length_nil] at hlen
      have h0 : natReprAux (a / 10 + 1) (a / 10) = [] :=
        List.length_eq_zero.mp (by omega)
      exact absurd h0 (natReprAux_ne_nil _)
    · rw [natReprAux_large (show (10:Nat) ≤ a by omega)] at h
      rw [natReprAux_large (show (10:Nat) ≤ b by omega)] at h
      have hdig : Nat.digitChar (a % 10) = Nat.digitChar (b % 10) := by
        have h' := congrArg List.getLast? h
        rw [List.getLast?_concat, List.getLast?_concat] at h'
        exact Option.some.inj h'
      have hpre : natReprAux (a / 10 + 1) (a / 10) = natReprAux (b / 10 + 1) (b / 10) := by
        have h' := congrArg List.dropLast h
        rw [List.dropLast_concat, List.dropLast_concat] at h'
        exact h'
      have hmod : a % 10 = b % 10 :=
        digitChar_inj (Nat.mod_lt _ (by omega)) (Nat.mod_lt _ (by omega)) hdig
      have hdiv : a / 10 = b / 10 :=
        ih (a / 10) (Nat.div_lt_self (by omega) (by omega)) (b / 10) hpre
      omega

theorem natRepr_inj : Function.Injective natRepr := by
  intro a b h
  have : natReprAux (a + 1) a = natReprAux (b + 1) b := congrArg String.data h
  exact natReprAux_inj a b this

theorem probe_found (used : List String) (base : String) :
    ∀ (fuel c : Nat),
      (((List.range' c fuel).map (fun j => base ++ natRepr j)).filter
        (fun s => used.contains s)).length < fuel →
      ∃ k, probe used base fuel c = base ++ natRepr k ∧ c ≤ k ∧
        ¬ used.contains (base ++ natRepr k) = true ∧
        (∀ j, c ≤ j → j < k → used.contains (base ++ natRepr j) = true) := by
  intro fuel
  induction fuel with
  | zero => intro c h; omega
  | succ fuel ih =>
    intro c h
    by_cases hc : used.contains (base ++ natRepr c)
    · have hrange : List.range' c (fuel + 1) = c :: List.range' (c + 1) fuel := by
        simp [List.range'_succ]
      rw [hrange] at h
      simp only [List.map_cons, List.filter_cons, hc, if_pos] at h
      have h' : (((List.range' (c + 1) fuel).map (fun j => base ++ natRepr j)).filter
          (fun s => used.contains s)).length < fuel := by
        simpa using Nat.lt_of_succ_lt_succ (by simpa using h)
      obtain ⟨k, hk, hck, hfree, hleast⟩ := ih (c + 1) h'
      refine ⟨k, ?_, by omega, hfree, ?_⟩
      · have hstep : probe used base (fuel + 1) c =
            if used.contains (base ++ natRepr c) then probe used base fuel (c + 1)
            else base ++ natRepr c := rfl
        rw [hstep, if_pos hc, hk]
      · intro j hcj hjk
        rcases Nat.eq_or_lt_of_le hcj with rfl | hlt
        · exact hc
        · exact hleast j hlt hjk
    · refine ⟨c, ?_, le_refl c, hc, by intro j h1 h2; omega⟩
      have hstep : probe used base (fuel + 1) c =
          if used.contains (base ++ natRepr c) then probe used base fuel (c + 1)
          else base ++ natRepr c := rfl
      rw [hstep, if_neg hc]

theorem probe_fuel_sufficient (used : List String) (base : String) (c : Nat) :
    (((List.range' c (used.length + 1)).map (fun j => base ++ natRepr j)).filter
      (fun s => used.contains s)).length < used.length + 1 := by
  set l := ((List.range' c (used.length + 1)).map (fun j => base ++ natRepr j)).filter
      (fun s => used.contains s) with hl
  have hnodup : l.Nodup := by
    apply List.Nodup.filter
    apply List.Nodup.map
    · intro x y hxy
      have : natRepr x = natRepr y := by
        have hd := congrArg String.data hxy
        simp only [String.data_append] at hd
        have := List.append_cancel_left hd
        exact String.ext this
      exact natRepr_inj this
    · exact List.nodup_range' _ _
  have hsub : l.toFinset ⊆ used.toFinset := by
    intro x hx
    rw [List.mem_toFinset] at hx ⊢
    have hx' := (List.mem_filter.mp hx).2
    simpa using hx'
  calc l.length = l.toFinset.card := (List.toFinset_card_of_nodup hnodup).symm
    _ ≤ used.toFinset.card := Finset.card_le_card hsub
    _ ≤ used.length := used.toFinset_card_le
    _ < used.length + 1 := by omega

theorem unique_name_spec_used (used : List String) (base : String)
    (h : used.contains base = true) :
    ∃ k, 2 ≤ k ∧ unique_name used base = base ++ natRepr k ∧
      used.contains (base ++ natRepr k) ≠ true ∧
      (∀ j, 2 ≤ j → j < k → used.contains (base ++ natRepr j) = true) := by
  obtain ⟨k, hk, hck, hfree, hleast⟩ :=
    probe_found used base (used.length + 1) 2 (probe_fuel_sufficient used base 2)
  exact ⟨k, hck, by rw [unique_name, if_pos h]; exact hk, hfree, hleast⟩

theorem unique_name_fresh (used : List String) (base : String) :
    unique_name used base ∉ used := by
  by_cases h : used.contains base = true
  · obtain ⟨k, _, heq, hfree, _⟩ := unique_name_spec_used used base h
    rw [heq]
    intro hmem
    exact hfree (by simpa using hmem)
  · rw [unique_name, if_neg h]
    intro hmem
    exact h (by simpa using hmem)

theorem lookup_cons_self {β : Type} (k : String) (nm : β) (l : List (String × β)) :
    List.lookup k ((k, nm) :: l) = some nm := by
  simp [List.lookup]

theorem lookup_cons_ne {β : Type} {p k : String} (nm : β) (l : List (String × β))
    (h : k ≠ p) : List.lookup p ((k, nm) :: l) = List.lookup p l := by
  simp [List.lookup, beq_eq_false_iff_ne.mpr (Ne.symm h)]

theorem add_route_get_preserve (m : ImportMap) (x : Route) {p n : String}
    (h : m.get p = some n) : ((m.add_route x).2).get p = some n := by
  rw [ImportMap.add_route]
  cases hx : m.path_to_name.lookup x.path with
  | some name => simpa [ImportMap.get] using h
  | none =>
    by_cases hpe : x.path = p
    · rw [hpe] at hx
      rw [ImportMap.get] at h
      rw [hx] at h
      cases h
    · simpa [ImportMap.get, lookup_cons_ne _ _ hpe] using h

theorem add_layout_get_preserve (m : ImportMap) (x : Layout) {p n : String}
    (h : m.get p = some n) : ((m.add_layout x).2).get p = some n := by
  rw [ImportMap.add_layout]
  cases hx : m.path_to_name.lookup x.path with
  | some name => simpa [ImportMap.get] using h
  | none =>
    by_cases hpe : x.path = p
    · rw [hpe] at hx
      rw [ImportMap.get] at h
      rw [hx] at h
      cases h
    · simpa [ImportMap.get, lookup_cons_ne _ _ hpe] using h

theorem add_route_get_self (m : ImportMap) (x : Route) :
    ∃ n, ((m.add_route x).2).get x.path = some n := by
  rw [ImportMap.add_route]
  cases hx : m.path_to_name.lookup x.path with
  | some name => exact ⟨name, by simpa [ImportMap.get] using hx⟩
  | none =>
    exact ⟨unique_name m.used_names (capitalize x.name),
      by simp [ImportMap.get, lookup_cons_self]⟩

theorem add_layout_get_self (m : ImportMap) (x : Layout) :
    ∃ n, ((m.add_layout x).2).get x.path = some n := by
  rw [ImportMap.add_layout]
  cases hx : m.path_to_name.lookup x.path with
  | some name => exact ⟨name, by simpa [ImportMap.get] using hx⟩
  | none =>
    exact ⟨unique_name m.used_names (capitalize x.name ++ "Layout"),
      by simp [ImportMap.get, lookup_cons_self]⟩

theorem foldl_add_layout_preserve (ls : List Layout) (m : ImportMap) {p n : String}
    (h : m.get p = some n) :
    (ls.foldl (fun m l => (m.add_layout l).2) m).get p = some n := by
  induction ls generalizing m with
  | nil => exact h
  | cons l ls ih => exact ih _ (add_layout_get_preserve m l h)

theorem foldl_add_route_preserve (rs : List Route) (m : ImportMap) {p n : String}
    (h : m.get p = some n) :
    (rs.foldl (fun m r => (m.add_route r).2) m).get p = some n := by
  induction rs generalizing m with
  | nil => exact h
  | cons r rs ih => exact ih _ (add_route_get_preserve m r h)

theorem foldl_add_layout_mem (ls : List Layout) (m : ImportMap) {l : Layout}
    (h : l ∈ ls) :
    ∃ n, (ls.foldl (fun m l => (m.add_layout l).2) m).get l.path = some n := by
  induction ls generalizing m with
  | nil => cases h
  | cons x xs ih =>
    rcases List.mem_cons.mp h with rfl | hmem
    · obtain ⟨n, hn⟩ := add_layout_get_self m l
      exact ⟨n, foldl_add_layout_preserve xs _ hn⟩
    · exact ih _ hmem

theorem foldl_add_route_mem (rs : List Route) (m : ImportMap) {r : Route}
    (h : r ∈ rs) :
    ∃ n, (rs.foldl (fun m r => (m.add_route r).2) m).get r.path = some n := by
  induction rs generalizing m with
  | nil => cases h
  | cons x xs ih =>
    rcases List.mem_cons.mp h with rfl | hmem
    · obtain ⟨n, hn⟩ := add_route_get_self m r
      exact ⟨n, foldl_add_route_preserve xs _ hn⟩
    · exact ih _ hmem

theorem register_all_layout_mem (rt : RouterJsx) {l : Layout} (h : l ∈ rt.layouts) :
    ∃ n, (register_all rt).get l.path = some n := by
  obtain ⟨n, hn⟩ := foldl_add_layout_mem rt.layouts ImportMap.empty h
  exact ⟨n, foldl_add_route_preserve rt.routes _ hn⟩

theorem register_all_route_mem (rt : RouterJsx) {r : Route} (h : r ∈ rt.routes) :
    ∃ n, (register_all rt).get r.path = some n :=
  foldl_add_route_mem rt.routes _ h

/-- C10: for every finite set of already-used identifiers and every base name,
the collision-probing loop in `unique_name` terminates — with
`used.length + 1` probes it settles on a definite candidate
`base ++ natRepr k` — and the returned identifier is not contained in the
set. -/
theorem c10_unique_name_terminates (used : List String) (base : String) :
    unique_name used base ∉ used
    ∧ probe used base (used.length + 1) 2 ∉ used
    ∧ ∃ k, 2 ≤ k ∧ probe used base (used.length + 1) 2 = base ++ natRepr k := by
  obtain ⟨k, hk, hck, hfree, _⟩ :=
    probe_found used base (used.length + 1) 2 (probe_fuel_sufficient used base 2)
  refine ⟨unique_name_fresh used base, ?_, k, hck, hk⟩
  rw [hk]
  intro hmem
  exact hfree (by simpa using hmem)

/-- C9: every lookup performed by `RouterJsx::to_string` while emitting imports
and route elements succeeds, because every layout and every route is
registered in the import map before rendering begins; the `unwrap` calls can
never hit the `None` branch. -/
theorem c9_render_lookups_total (rt : RouterJsx) :
    (∀ l ∈ rt.layouts, ((register_all rt).get l.path).isSome = true)
    ∧ (∀ r ∈ rt.routes, ((register_all rt).get r.path).isSome = true) := by
  constructor
  · intro l hl
    obtain ⟨n, hn⟩ := register_all_layout_mem rt hl
    simp [hn]
  · intro r hr
    obtain ⟨n, hn⟩ := register_all_route_mem rt hr
    simp [hn]

theorem c9_witness :
    ((register_all rtMain).get "layouts/Main").isSome = true
    ∧ ((register_all rtMain).get "views/Home").isSome = true :=
  ⟨(c9_render_lookups_total rtMain).1 ⟨"main", "layouts/Main"⟩ (by decide),
   (c9_render_lookups_total rtMain).2 ⟨"home", "/", none, "views/Home", some "main"⟩
     (by decide)⟩

theorem add_entry_fresh (m : ImportMap) (e : RegEntry) (hp : m.get e.path = none) :
    m.add_entry e
      = (unique_name m.used_names e.base,
         ⟨(e.path, unique_name m.used_names e.base) :: m.path_to_name,
          unique_name m.used_names e.base :: m.used_names⟩) := by
  cases e with
  | layout l =>
    rw [ImportMap.add_entry, ImportMap.add_layout,
      show m.path_to_name.lookup l.path = none from hp]
    rfl
  | route r =>
    rw [ImportMap.add_entry, ImportMap.add_route,
      show m.path_to_name.lookup r.path = none from hp]
    rfl

theorem add_entry_get_preserve (m : ImportMap) (e : RegEntry) {p n : String}
    (h : m.get p = some n) : ((m.add_entry e).2).get p = some n := by
  cases e with
  | layout l => exact add_layout_get_preserve m l h
  | route r => exact add_route_get_preserve m r h

theorem register_from_get_preserve (es : List RegEntry) (m : ImportMap) {p n : String}
    (h : m.get p = some n) : (register_from m es).get p = some n := by
  induction es generalizing m with
  | nil => exact h
  | cons e es ih => exact ih _ (add_entry_get_preserve m e h)

theorem add_entry_used_mono (m : ImportMap) (e : RegEntry) {x : String}
    (h : x ∈ m.used_names) : x ∈ ((m.add_entry e).2).used_names := by
  cases e with
  | layout l =>
    rw [ImportMap.add_entry, ImportMap.add_layout]
    cases hl : m.path_to_name.lookup l.path with
    | some name => exact h
    | none => exact List.mem_cons_of_mem _ h
  | route r =>
    rw [ImportMap.add_entry, ImportMap.add_route]
    cases hl : m.path_to_name.lookup r.path with
    | some name => exact h
    | none => exact List.mem_cons_of_mem _ h

theorem register_from_used_mono (es : List RegEntry) (m : ImportMap) {x : String}
    (h : x ∈ m.used_names) : x ∈ (register_from m es).used_names := by
  induction es generalizing m with
  | nil => exact h
  | cons e es ih => exact ih _ (add_entry_used_mono m e h)

theorem add_entry_get_self (m : ImportMap) (e : RegEntry) (hp : m.get e.path = none) :
    ((m.add_entry e).2).get e.path = some ((m.add_entry e).1) := by
  rw [add_entry_fresh m e hp]
  exact lookup_cons_self _ _ _

theorem register_from_append (m : ImportMap) (xs ys : List RegEntry) :
    register_from m (xs ++ ys) = register_from (register_from m xs) ys := by
  rw [register_from, register_from, register_from, List.foldl_append]

theorem register_from_cons (m : ImportMap) (e : RegEntry) (es : List RegEntry) :
    register_from m (e :: es) = register_from ((m.add_entry e).2) es := rfl

theorem register_all_eq_register_from (rt : RouterJsx) :
    register_all rt = register_from ImportMap.empty (reg_entries rt) := by
  rw [register_all, register_from, reg_entries, List.foldl_append,
    List.foldl_map, List.foldl_map]
  rfl

/-- C8: for every route table whose registration sequence — all layouts, then
all routes — contains two entries with the same candidate base name but
distinct file paths (the base name still unused and each path unregistered
when its entry is reached), the Router Assembler assigns them distinct
identifiers: the first gets the base name, the second gets `base ++ natRepr k`
for the first `k` among `2, 3, …`, probed in increasing order, whose
candidate is unused at its registration; `register_all`'s map records both. -/
theorem c8_collision_naming (rt : RouterJsx) (pre mid post : List RegEntry)
    (e1 e2 : RegEntry) (m1 m2 : ImportMap)
    (hsplit : reg_entries rt = pre ++ e1 :: (mid ++ e2 :: post))
    (hbase : e1.base = e2.base)
    (hpath : e1.path ≠ e2.path)
    (hm1 : m1 = register_from ImportMap.empty pre)
    (hm2 : m2 = register_from ((m1.add_entry e1).2) mid)
    (h1 : m1.get e1.path = none)
    (hun : m1.used_names.contains e1.base = false)
    (h2 : m2.get e2.path = none) :
    (m1.add_entry e1).1 = e1.base
    ∧ (m1.add_entry e1).1 ≠ (m2.add_entry e2).1
    ∧ (register_all rt).get e1.path = some (m1.add_entry e1).1
    ∧ (register_all rt).get e2.path = some (m2.add_entry e2).1
    ∧ ∃ k, 2 ≤ k
        ∧ (m2.add_entry e2).1 = e2.base ++ natRepr k
        ∧ (e2.base ++ natRepr k) ∉ m2.used_names
        ∧ ∀ j, 2 ≤ j → j < k → (e2.base ++ natRepr j) ∈ m2.used_names := by
  have hnames : unique_name m1.used_names e1.base = e1.base := by
    rw [unique_name, if_neg (by rw [hun]; simp)]
  have e1f := add_entry_fresh m1 e1 h1
  have hn1 : (m1.add_entry e1).1 = e1.base := by
    rw [e1f, hnames]
  have hbase_m2 : e1.base ∈ m2.used_names := by
    rw [hm2]
    apply register_from_used_mono
    rw [e1f, hnames]
    exact List.mem_cons_self _ _
  have hcont : m2.used_names.contains e2.base = true := by
    rw [← hbase]
    simpa using hbase_m2
  obtain ⟨k, hk2, heq, hfree, hleast⟩ := unique_name_spec_used m2.used_names e2.base hcont
  have e2f := add_entry_fresh m2 e2 h2
  have hn2 : (m2.add_entry e2).1 = unique_name m2.used_names e2.base := by rw [e2f]
  have hreg : register_all rt = register_from ((m2.add_entry e2).2) post := by
    rw [register_all_eq_register_from, hsplit, register_from_append,
      register_from_cons, register_from_append, register_from_cons, ← hm1, ← hm2]
  have hget1 : (register_all rt).get e1.path = some (m1.add_entry e1).1 := by
    rw [hreg]
    apply register_from_get_preserve
    apply add_entry_get_preserve
    rw [hm2]
    apply register_from_get_preserve
    exact add_entry_get_self m1 e1 h1
  have hget2 : (register_all rt).get e2.path = some (m2.add_entry e2).1 := by
    rw [hreg]
    apply register_from_get_preserve
    exact add_entry_get_self m2 e2 h2
  refine ⟨hn1, ?_, hget1, hget2, k, hk2, by rw [hn2, heq], ?_, ?_⟩
  · rw [hn1, hn2, heq]
    intro hcontra
    apply hfree
    rw [← hcontra]
    simpa using hbase_m2
  · intro hmem
    exact hfree (by simpa using hmem)
  · intro j hj2 hjk
    have := hleast j hj2 hjk
    simpa using this

theorem c8_witness :
    (reg_entries rtHomeClash = [] ++ e1Clash :: (midClash ++ e2Clash :: [])
    ∧ e1Clash.base = e2Clash.base
    ∧ e1Clash.path ≠ e2Clash.path
    ∧ ImportMap.empty.get e1Clash.path = none
    ∧ ImportMap.empty.used_names.contains e1Clash.base = false
    ∧ m2Clash.get e2Clash.path = none)
    ∧ ((ImportMap.empty.add_entry e1Clash).1 = e1Clash.base
    ∧ (ImportMap.empty.add_entry e1Clash).1 ≠ (m2Clash.add_entry e2Clash).1
    ∧ (register_all rtHomeClash).get e1Clash.path
        = some (ImportMap.empty.add_entry e1Clash).1
    ∧ (register_all rtHomeClash).get e2Clash.path
        = some (m2Clash.add_entry e2Clash).1
    ∧ ∃ k, 2 ≤ k
        ∧ (m2Clash.add_entry e2Clash).1 = e2Clash.base ++ natRepr k
        ∧ (e2Clash.base ++ natRepr k) ∉ m2Clash.used_names
        ∧ ∀ j, 2 ≤ j → j < k → (e2Clash.base ++ natRepr j) ∈ m2Clash.used_names) :=
  ⟨⟨by decide, by decide, by decide, by decide, by decide, by decide⟩,
   c8_collision_naming rtHomeClash [] midClash [] e1Clash e2Clash ImportMap.empty m2Clash
     (by decide) (by decide) (by decide) rfl rfl (by decide) (by decide) (by decide)⟩

theorem route_import_entries_countP (m : ImportMap) (p : String) :
    ∀ (rs : List Route) (seen : List String),
      (route_import_entries m rs seen).countP (fun e => e.2 == p) =
        if p ∈ seen then 0 else if rs.any (fun r => r.path == p) then 1 else 0 := by
  intro rs
  induction rs with
  | nil => intro seen; simp [route_import_entries]
  | cons r rs ih =>
    intro seen
    rw [route_import_entries]
    by_cases hseen : seen.contains r.path
    · rw [if_pos hseen, ih seen]
      by_cases hp : p ∈ seen
      · simp [hp]
      · have hrp : (r.path == p) = false := by
          apply beq_eq_false_iff_ne.mpr
          intro hcontra
          exact hp (hcontra ▸ (by simpa using hseen))
        simp [hp, hrp]
    · rw [if_neg hseen]
      rw [List.countP_cons, ih (r.path :: seen)]
      by_cases hp : p ∈ seen
      · have hrp : (r.path == p) = false := by
          apply beq_eq_false_iff_ne.mpr
          intro hcontra
          exact hseen (by simpa using hcontra ▸ hp)
        simp [hp, hrp, List.mem_cons]
      · by_cases hrp : r.path = p
        · subst hrp
          simp [hp, List.mem_cons]
        · have hrpb : (r.path == p) = false := beq_eq_false_iff_ne.mpr hrp
          have hmemc : (p ∈ r.path :: seen) = (p ∈ seen) := by
            simp [List.mem_cons, Ne.symm hrp]
          simp [hp, hrpb, hmemc, Ne.symm hrp]

theorem route_import_entries_shape (m : ImportMap) :
    ∀ (rs : List Route) (seen : List String) (e : String × String),
      e ∈ route_import_entries m rs seen → e = (unwrapName (m.get e.2), e.2) := by
  intro rs
  induction rs with
  | nil => intro seen e h; simp [route_import_entries] at h
  | cons r rs ih =>
    intro seen e h
    rw [route_import_entries] at h
    by_cases hseen : seen.contains r.path
    · rw [if_pos hseen] at h
      exact ih seen e h
    · rw [if_neg hseen] at h
      rcases List.mem_cons.mp h with heq | hmem
      · rw [heq]
      · exact ih (r.path :: seen) e hmem

/-- C1 counterexample: in `rtShared` a layout and a route declare the same
path `"shared/Comp"`, yet the rendered output contains two import lines for
that path (one from the layout-import loop, one from the view-import loop,
which deduplicates only against other routes), not exactly one. -/
theorem c1_counterexample :
    (⟨"main", "shared/Comp"⟩ : Layout) ∈ rtShared.layouts
    ∧ (⟨"home", "/", none, "shared/Comp", none⟩ : Route) ∈ rtShared.routes
    ∧ ¬ ((all_import_entries rtShared).countP (fun e => e.2 == "shared/Comp") = 1) := by
  refine ⟨by decide, by decide, ?_⟩
  have : (all_import_entries rtShared).countP (fun e => e.2 == "shared/Comp") = 2 := by
    decide
  omega

/-- C1 (amended): when a layout and a route declare the same file path, the
emitted import lines bind the same assigned identifier for that path, but the
output contains exactly two import lines for the path (one in the
layout-import section and one in the route-import section), not one —
provided exactly one layout declares the path. -/
theorem c1_shared_path (rt : RouterJsx) (L : Layout) (R : Route) (p : String)
    (hL : L ∈ rt.layouts) (hR : R ∈ rt.routes) (hLp : L.path = p) (hRp : R.path = p)
    (hone : rt.layouts.countP (fun l => l.path == p) = 1) :
    (all_import_entries rt).countP (fun e => e.2 == p) = 2
    ∧ ∀ e ∈ all_import_entries rt, e.2 = p →
        e.1 = unwrapName ((register_all rt).get p) := by
  constructor
  · rw [all_import_entries, List.countP_append]
    have hlay : (layout_import_entries (register_all rt) rt.layouts).countP
        (fun e => e.2 == p) = 1 := by
      rw [layout_import_entries, List.countP_map]
      exact hone
    have hroute : (route_import_entries (register_all rt) rt.routes []).countP
        (fun e => e.2 == p) = 1 := by
      rw [route_import_entries_countP]
      have hany : rt.routes.any (fun r => r.path == p) = true := by
        rw [List.any_eq_true]
        exact ⟨R, hR, by simp [hRp]⟩
      simp [hany]
    rw [hlay, hroute]
  · intro e he hep
    rw [all_import_entries] at he
    rcases List.mem_append.mp he with hl | hr
    · rw [layout_import_entries] at hl
      obtain ⟨l, _, hle⟩ := List.mem_map.mp hl
      rw [← hle] at hep ⊢
      simp only at hep ⊢
      rw [hep]
    · have := route_import_entries_shape (register_all rt) rt.routes [] e hr
      rw [this, hep]

theorem c1_witness :
    ((⟨"main", "shared/Comp"⟩ : Layout) ∈ rtShared.layouts
    ∧ (⟨"home", "/", none, "shared/Comp", none⟩ : Route) ∈ rtShared.routes
    ∧ rtShared.layouts.countP (fun l => l.path == "shared/Comp") = 1)
    ∧ ((all_import_entries rtShared).countP (fun e => e.2 == "shared/Comp") = 2
    ∧ ∀ e ∈ all_import_entries rtShared, e.2 = "shared/Comp" →
        e.1 = unwrapName ((register_all rtShared).get "shared/Comp")) :=
  ⟨⟨by decide, by decide, by decide⟩,
   c1_shared_path rtShared ⟨"main", "shared/Comp"⟩ ⟨"home", "/", none, "shared/Comp", none⟩
     "shared/Comp" (by decide) (by decide) (by decide) (by decide) (by decide)⟩

theorem add_grouped_lookup_eq (t : List (String × List Route)) (k : String) (r : Route) :
    (add_grouped t k r).lookup k = some ((t.lookup k).getD [] ++ [r]) := by
  induction t with
  | nil => simp [add_grouped, List.lookup]
  | cons h t ih =>
    obtain ⟨k', rs⟩ := h
    rw [add_grouped]
    by_cases hk : (k' == k) = true
    · rw [if_pos hk]
      have hke : k' = k := eq_of_beq hk
      subst hke
      rw [lookup_cons_self, lookup_cons_self]
      simp
    · rw [if_neg (by simpa using hk)]
      have hne : k' ≠ k := by simpa using hk
      rw [lookup_cons_ne _ _ hne, lookup_cons_ne _ _ hne, ih]

theorem add_grouped_lookup_ne (t : List (String × List Route)) (k0 : String) (r : Route)
    {k : String} (h : k ≠ k0) : (add_grouped t k0 r).lookup k = t.lookup k := by
  induction t with
  | nil => simp [add_grouped, List.lookup, beq_eq_false_iff_ne.mpr h]
  | cons hd t ih =>
    obtain ⟨k', rs⟩ := hd
    rw [add_grouped]
    by_cases hk : (k' == k0) = true
    · rw [if_pos hk]
      have hke : k' = k0 := eq_of_beq hk
      subst hke
      rw [lookup_cons_ne _ _ (Ne.symm h), lookup_cons_ne _ _ (Ne.symm h)]
    · rw [if_neg (by simpa using hk)]
      by_cases hkk : k' = k
      · subst hkk
        rw [lookup_cons_self, lookup_cons_self]
      · rw [lookup_cons_ne _ _ hkk, lookup_cons_ne _ _ hkk, ih]

theorem group_fold_fst_lookup (routes : List Route) :
    ∀ (acc : List (String × List Route) × List Route) (k : String),
      ((routes.foldl group_step acc).1).lookup k =
        if acc.1.lookup k = none ∧ routes.filter (fun r => r.layout == some k) = []
        then none
        else some ((acc.1.lookup k).getD [] ++ routes.filter (fun r => r.layout == some k)) := by
  induction routes with
  | nil =>
    intro acc k
    cases h : acc.1.lookup k with
    | none => simp [h]
    | some rs => simp [h]
  | cons r rest ih =>
    intro acc k
    rw [List.foldl_cons, ih]
    cases hlay : r.layout with
    | none =>
      have hstep : group_step acc r = (acc.1, acc.2 ++ [r]) := by
        rw [group_step, hlay]
      have hfil : (r.layout == some k) = false := by simp [hlay]
      rw [hstep, List.filter_cons, hfil]
      simp
    | some k0 =>
      have hstep : group_step acc r = (add_grouped acc.1 k0 r, acc.2) := by
        rw [group_step, hlay]
      rw [hstep]
      by_cases hk : k0 = k
      · subst hk
        have hfil : (r.layout == some k0) = true := by simp [hlay]
        rw [List.filter_cons, hfil]
        simp only [add_grouped_lookup_eq]
        have hnotnone : ¬ (some ((acc.1.lookup k0).getD [] ++ [r]) = none ∧
            rest.filter (fun r => r.layout == some k0) = []) := by
          intro hcontra
          cases hcontra.1
        rw [if_neg hnotnone]
        cases h : acc.1.lookup k0 with
        | none => simp [h]
        | some rs => simp [h]
      · have hfil : (r.layout == some k) = false := by simp [hlay, hk]
        rw [List.filter_cons, hfil]
        rw [add_grouped_lookup_ne _ _ _ (Ne.symm hk)]
        simp

theorem group_routes_lookup (routes : List Route) (k : String) :
    (group_routes routes).1.lookup k =
      if routes.filter (fun r => r.layout == some k) = [] then none
      else some (routes.filter (fun r => r.layout == some k)) := by
  rw [group_routes, group_fold_fst_lookup]
  simp [List.lookup]

theorem group_fold_snd (routes : List Route) :
    ∀ acc, (routes.foldl group_step acc).2
      = acc.2 ++ routes.filter (fun r => r.layout == none) := by
  induction routes with
  | nil => intro acc; simp
  | cons r rest ih =>
    intro acc
    rw [List.foldl_cons, ih]
    cases hlay : r.layout with
    | none =>
      have hstep : group_step acc r = (acc.1, acc.2 ++ [r]) := by rw [group_step, hlay]
      have hfil : (r.layout == (none : Option String)) = true := by simp [hlay]
      rw [hstep, List.filter_cons, hfil]
      simp
    | some k0 =>
      have hstep : group_step acc r = (add_grouped acc.1 k0 r, acc.2) := by
        rw [group_step, hlay]
      have hfil : (r.layout == (none : Option String)) = false := by simp [hlay]
      rw [hstep, List.filter_cons, hfil]
      simp

theorem ungrouped_eq (rt : RouterJsx) :
    ungrouped rt = rt.routes.filter (fun r => r.layout == none) := by
  rw [ungrouped, group_routes, group_fold_snd]
  simp

theorem rendered_groups_mem (rt : RouterJsx) (l : Layout) (rs : List Route) :
    (l, rs) ∈ rendered_groups rt ↔
      l ∈ rt.layouts ∧ (group_routes rt.routes).1.lookup l.name = some rs := by
  rw [rendered_groups, List.mem_filterMap]
  constructor
  · rintro ⟨a, ha, hfa⟩
    rcases Option.map_eq_some'.mp hfa with ⟨rs', hrs', heq⟩
    have hal : a = l := congrArg Prod.fst heq
    have hrr : rs' = rs := congrArg Prod.snd heq
    subst hal
    subst hrr
    exact ⟨ha, hrs'⟩
  · rintro ⟨hl, hlook⟩
    exact ⟨l, hl, by rw [hlook]; rfl⟩

theorem count_filter_eq (p : Route → Bool) (l : List Route) (r : Route) :
    (l.filter p).count r = if p r then l.count r else 0 := by
  induction l with
  | nil => simp
  | cons x xs ih =>
    by_cases hxr : x = r
    · subst hxr
      by_cases hpx : p x
      · simp [List.filter_cons, hpx, List.count_cons, ih]
      · simp [List.filter_cons, hpx, List.count_cons, ih]
    · have hb : (x == r) = false := beq_eq_false_iff_ne.mpr hxr
      by_cases hpx : p x
      · simp [List.filter_cons, hpx, List.count_cons, ih, hb]
      · simp [List.filter_cons, hpx, List.count_cons, ih, hb]

theorem grouped_count (routes : List Route) (r : Route) (nm : String)
    (hmem : r ∈ routes) (hlay : r.layout = some nm) :
    ∀ ls : List Layout, (ls.map (fun l => l.name)).Nodup →
      ((ls.filterMap (fun l => ((group_routes routes).1.lookup l.name).map
          (fun rs => (l, rs)))).map Prod.snd).flatten.count r
        = if nm ∈ ls.map (fun l => l.name) then routes.count r else 0 := by
  intro ls
  induction ls with
  | nil => simp
  | cons l ls ih =>
    intro hnd
    rw [List.map_cons] at hnd
    obtain ⟨hhead, htail⟩ := List.nodup_cons.mp hnd
    rw [List.filterMap_cons]
    rw [group_routes_lookup routes l.name]
    by_cases hemp : routes.filter (fun r => r.layout == some l.name) = []
    · rw [if_pos hemp]
      have hne : nm ≠ l.name := by
        intro hcontra
        apply List.ne_nil_of_mem (a := r) ?_ hemp
        exact List.mem_filter.mpr ⟨hmem, by simp [hlay, hcontra]⟩
      simp only [Option.map_none']
      rw [ih htail]
      simp [List.mem_cons, hne]
    · rw [if_neg hemp]
      simp only [Option.map_some', List.map_cons, List.flatten_cons, List.count_append]
      rw [count_filter_eq, ih htail]
      by_cases hnm : nm = l.name
      · subst hnm
        simp [hlay, hhead, List.mem_cons]
      · simp [hlay, hnm, List.mem_cons]

/-- C3 counterexample: in `rtDupName` two layouts share the name `"a"`; the
route referencing layout `"a"` appears twice in the rendered routes array
(once under each duplicate layout entry), not exactly once. -/
theorem c3_counterexample :
    (⟨"r", "/", none, "q", some "a"⟩ : Route) ∈ rtDupName.routes
    ∧ "a" ∈ rtDupName.layouts.map (fun l => l.name)
    ∧ ¬ (((rendered_groups rtDupName).map Prod.snd).flatten.count
          (⟨"r", "/", none, "q", some "a"⟩ : Route) = 1) := by
  refine ⟨by decide, by decide, ?_⟩
  have h2 : ((rendered_groups rtDupName).map Prod.snd).flatten.count
      (⟨"r", "/", none, "q", some "a"⟩ : Route) = 2 := by decide
  omega

/-- C3 (amended): for every route table whose layout names are pairwise
distinct, every route whose `layout` matches some layout's name appears
exactly once in the rendered routes array (each list occurrence of the route
appears exactly once), as a child of that layout's entry, in original route
order within the group; every route with no `layout` appears exactly once in
the trailing ungrouped section, in original order; and a layout referenced by
no route produces no array entry. -/
theorem c3_grouping (rt : RouterJsx)
    (hnd : (rt.layouts.map (fun l => l.name)).Nodup) :
    (∀ l ∈ rt.layouts, ∀ rs, (l, rs) ∈ rendered_groups rt →
        rs = rt.routes.filter (fun r => r.layout == some l.name))
    ∧ (∀ r ∈ rt.routes, ∀ nm, r.layout = some nm →
        nm ∈ rt.layouts.map (fun l => l.name) →
        ((rendered_groups rt).map Prod.snd).flatten.count r = rt.routes.count r)
    ∧ ungrouped rt = rt.routes.filter (fun r => r.layout == none)
    ∧ (∀ l ∈ rt.layouts, (∀ r ∈ rt.routes, (r.layout == some l.name) = false) →
        ∀ rs, (l, rs) ∉ rendered_groups rt) := by
  refine ⟨?_, ?_, ungrouped_eq rt, ?_⟩
  · intro l _ rs hlrs
    obtain ⟨_, hlook⟩ := (rendered_groups_mem rt l rs).mp hlrs
    rw [group_routes_lookup] at hlook
    by_cases hemp : rt.routes.filter (fun r => r.layout == some l.name) = []
    · rw [if_pos hemp] at hlook
      cases hlook
    · rw [if_neg hemp] at hlook
      exact (Option.some.inj hlook).symm
  · intro r hr nm hnm hmemnm
    have := grouped_count rt.routes r nm hr hnm rt.layouts hnd
    rw [rendered_groups]
    rw [this, if_pos hmemnm]
  · intro l _ hnone rs hlrs
    obtain ⟨_, hlook⟩ := (rendered_groups_mem rt l rs).mp hlrs
    rw [group_routes_lookup] at hlook
    by_cases hemp : rt.routes.filter (fun r => r.layout == some l.name) = []
    · rw [if_pos hemp] at hlook
      cases hlook
    · apply hemp
      rw [List.filter_eq_nil_iff]
      intro x hx
      rw [hnone x hx]
      simp

theorem c3_witness :
    (rtMain.layouts.map (fun l => l.name)).Nodup
    ∧ ((∀ l ∈ rtMain.layouts, ∀ rs, (l, rs) ∈ rendered_groups rtMain →
        rs = rtMain.routes.filter (fun r => r.layout == some l.name))
    ∧ (∀ r ∈ rtMain.routes, ∀ nm, r.layout = some nm →
        nm ∈ rtMain.layouts.map (fun l => l.name) →
        ((rendered_groups rtMain).map Prod.snd).flatten.count r = rtMain.routes.count r)
    ∧ ungrouped rtMain = rtMain.routes.filter (fun r => r.layout == none)
    ∧ (∀ l ∈ rtMain.layouts, (∀ r ∈ rtMain.routes, (r.layout == some l.name) = false) →
        ∀ rs, (l, rs) ∉ rendered_groups rtMain)) :=
  ⟨by decide, c3_grouping rtMain (by decide)⟩

/-- C4: a route whose `layout` field names no known layout is silently
excluded from the rendered routes array — it is in no layout group's children
and not in the trailing ungrouped section — and rendering is total. -/
theorem c4_orphan_route (rt : RouterJsx) (r : Route) (s : String)
    (hr : r ∈ rt.routes) (hs : r.layout = some s)
    (hns : s ∉ rt.layouts.map (fun l => l.name)) :
    (∀ l rs, (l, rs) ∈ rendered_groups rt → r ∉ rs) ∧ r ∉ ungrouped rt := by
  constructor
  · intro l rs hlrs hrin
    obtain ⟨hl, hlook⟩ := (rendered_groups_mem rt l rs).mp hlrs
    rw [group_routes_lookup] at hlook
    by_cases hemp : rt.routes.filter (fun r => r.layout == some l.name) = []
    · rw [if_pos hemp] at hlook
      cases hlook
    · rw [if_neg hemp] at hlook
      rw [← Option.some.inj hlook] at hrin
      have hbeq := (List.mem_filter.mp hrin).2
      rw [hs] at hbeq
      have : s = l.name := by simpa using hbeq
      exact hns (this ▸ List.mem_map.mpr ⟨l, hl, rfl⟩)
  · intro hin
    rw [ungrouped_eq] at hin
    have hbeq := (List.mem_filter.mp hin).2
    rw [hs] at hbeq
    simp at hbeq

theorem c4_witness :
    ((⟨"lost", "/x", none, "views/Lost", some "ghost"⟩ : Route) ∈ rtOrphan.routes
    ∧ "ghost" ∉ rtOrphan.layouts.map (fun l => l.name))
    ∧ ((∀ l rs, (l, rs) ∈ rendered_groups rtOrphan →
        (⟨"lost", "/x", none, "views/Lost", some "ghost"⟩ : Route) ∉ rs)
    ∧ (⟨"lost", "/x", none, "views/Lost", some "ghost"⟩ : Route) ∉ ungrouped rtOrphan) :=
  ⟨⟨by decide, by decide⟩,
   c4_orphan_route rtOrphan ⟨"lost", "/x", none, "views/Lost", some "ghost"⟩ "ghost"
     (by decide) (by decide) (by decide)⟩

/-- C7: a `ComponentRef` whose component name is not in the component library
renders as a primitive element whose tag is the reference name, with the
reference's own props unmodified and no `class_name`; the failed lookup never
aborts rendering. -/
theorem c7_unknown_component (v : ViewJsx) (c : String)
    (props : List (String × PropValue)) (children : List Element) (ind : Nat)
    (ctx : Option (List (String × String)))
    (h : v.component_defs.get c = none) :
    render_element v (.componentRef c props children) ind ctx
      = render_node v c none props children ind ctx := by
  rw [render_element, h]

theorem c7_witness :
    vUnknown.component_defs.get "Widget" = none
    ∧ render_element vUnknown (.componentRef "Widget" [("x", .num 1)] []) 4 none
      = render_node vUnknown "Widget" none [("x", .num 1)] [] 4 none :=
  ⟨rfl, c7_unknown_component vUnknown "Widget" [("x", .num 1)] [] 4 none rfl⟩

theorem render_records_eq_foldr (v : ViewJsx) (template : Element) (ind : Nat) :
    ∀ l : List ContentValue,
      render_records v template ind l
        = (l.map (fun item =>
            match item with
            | .record r => render_element v template ind (some r)
            | _ => "")).foldr (· ++ ·) "" := by
  intro l
  induction l with
  | nil => rw [render_records]; rfl
  | cons item rest ih =>
    cases item with
    | record r =>
      rw [render_records, ih, List.map_cons, List.foldr_cons]
    | str s =>
      rw [render_records, ih, List.map_cons, List.foldr_cons] <;> simp
    | list xs =>
      rw [render_records, ih, List.map_cons, List.foldr_cons] <;> simp

/-- C6: a `ContentList` whose source is missing from the content library or
resolves to a non-`List` value renders as the empty string; a `List` source
renders the template once per `Record` member with that record as the active
field-context, outputs concatenated in list order, with non-`Record` members
contributing nothing. -/
theorem c6_content_list (v : ViewJsx) (source : String) (template : Element)
    (ind : Nat) (ctx : Option (List (String × String))) :
    ((v.content_defs.get source = none
        ∨ ∃ cv, v.content_defs.get source = some cv ∧ ∀ items, cv ≠ .list items) →
      render_element v (.contentList source template) ind ctx = "")
    ∧ ∀ items, v.content_defs.get source = some (.list items) →
        render_element v (.contentList source template) ind ctx
          = (items.map (fun item =>
              match item with
              | .record r => render_element v template ind (some r)
              | _ => "")).foldr (· ++ ·) "" := by
  constructor
  · intro h
    have hnone : v.content_defs.get_list source = none := by
      rw [ContentDefs.get_list]
      rcases h with hn | ⟨cv, hcv, hne⟩
      · rw [show v.content_defs.content.lookup source = none from hn]
      · rw [show v.content_defs.content.lookup source = some cv from hcv]
        cases cv with
        | str s => rfl
        | record f => rfl
        | list items => exact absurd rfl (hne items)
    rw [render_element, hnone]
  · intro items hit
    have hsome : v.content_defs.get_list source = some items := by
      rw [ContentDefs.get_list,
        show v.content_defs.content.lookup source = some (.list items) from hit]
    rw [render_element, hsome]
    exact render_records_eq_foldr v template ind items

theorem c6_witness :
    vItems.content_defs.get "items"
      = some (.list [.record [("t", "a")], .str "x", .record [("t", "b")]])
    ∧ render_element vItems
        (.contentList "items" (.node "li" none [("text", .contentField "t")] [])) 4 none
      = (([.record [("t", "a")], .str "x", .record [("t", "b")]].map
          (fun item =>
            match item with
            | ContentValue.record r =>
              render_element vItems (.node "li" none [("text", .contentField "t")] []) 4
                (some r)
            | _ => "")).foldr (· ++ ·) "") :=
  ⟨rfl,
   (c6_content_list vItems "items" (.node "li" none [("text", .contentField "t")] []) 4
      none).2 [.record [("t", "a")], .str "x", .record [("t", "b")]] rfl⟩

theorem bool_eq_false {b : Bool} (h : ¬ b = true) : b = false := by
  cases b
  · rfl
  · exact absurd rfl h

theorem lookup_map_replace_ne (k : String) (v : PropValue) {k' : String} (h : k' ≠ k) :
    ∀ m : List (String × PropValue),
      (m.map (fun e => if e.1 == k then (k, v) else e)).lookup k' = m.lookup k' := by
  intro m
  induction m with
  | nil => rfl
  | cons e rest ih =>
    obtain ⟨k0, v0⟩ := e
    rw [List.map_cons]
    by_cases hk0 : (k0 == k) = true
    · rw [show (if ((k0, v0) : String × PropValue).1 == k then (k, v) else (k0, v0))
          = (k, v) by simp [hk0]]
      have hk0e : k0 = k := eq_of_beq hk0
      rw [lookup_cons_ne _ _ (Ne.symm h), hk0e, lookup_cons_ne _ _ (Ne.symm h), ih]
    · rw [show (if ((k0, v0) : String × PropValue).1 == k then (k, v) else (k0, v0))
          = (k0, v0) by simp [hk0]]
      by_cases hk0' : k0 = k'
      · subst hk0'
        rw [lookup_cons_self, lookup_cons_self]
      · rw [lookup_cons_ne _ _ hk0', lookup_cons_ne _ _ hk0', ih]

theorem lookup_map_replace_self (k : String) (v : PropValue) :
    ∀ m : List (String × PropValue), m.any (fun e => e.1 == k) = true →
      (m.map (fun e => if e.1 == k then (k, v) else e)).lookup k = some v := by
  intro m
  induction m with
  | nil => intro h; simp at h
  | cons e rest ih =>
    intro h
    obtain ⟨k0, v0⟩ := e
    rw [List.map_cons]
    by_cases hk0 : (k0 == k) = true
    · rw [show (if ((k0, v0) : String × PropValue).1 == k then (k, v) else (k0, v0))
          = (k, v) by simp [hk0]]
      exact lookup_cons_self k v _
    · rw [show (if ((k0, v0) : String × PropValue).1 == k then (k, v) else (k0, v0))
          = (k0, v0) by simp [hk0]]
      have hne : k0 ≠ k := by simpa using hk0
      rw [lookup_cons_ne _ _ hne]
      apply ih
      rcases List.any_eq_true.mp h with ⟨e, he, hek⟩
      rcases List.mem_cons.mp he with rfl | hemem
      · exact absurd hek (by simpa using hk0)
      · exact List.any_eq_true.mpr ⟨e, hemem, hek⟩

theorem lookup_append_single_ne {β : Type} (k : String) (v : β) {k' : String} (h : k' ≠ k) :
    ∀ m : List (String × β), (m ++ [(k, v)]).lookup k' = m.lookup k' := by
  intro m
  induction m with
  | nil => simp [List.lookup, beq_eq_false_iff_ne.mpr h]
  | cons e rest ih =>
    obtain ⟨k0, v0⟩ := e
    rw [List.cons_append]
    by_cases hk0 : k0 = k'
    · subst hk0
      rw [lookup_cons_self, lookup_cons_self]
    · rw [lookup_cons_ne _ _ hk0, lookup_cons_ne _ _ hk0, ih]

theorem lookup_append_single_self {β : Type} (k : String) (v : β) :
    ∀ m : List (String × β), m.any (fun e => e.1 == k) = false →
      (m ++ [(k, v)]).lookup k = some v := by
  intro m
  induction m with
  | nil => intro _; simp [List.lookup]
  | cons e rest ih =>
    intro h
    obtain ⟨k0, v0⟩ := e
    rw [List.cons_append]
    rw [List.any_cons] at h
    have hk0 : (k0 == k) = false := by
      cases hbe : (k0 == k) <;> simp [hbe] at h ⊢
    rw [lookup_cons_ne _ _ (by simpa using hk0)]
    exact ih (by cases hr : rest.any (fun e => e.1 == k) <;> simp [hr, hk0] at h ⊢)

theorem insertProp_lookup_self (m : List (String × PropValue)) (k : String) (v : PropValue) :
    (insertProp m k v).lookup k = some v := by
  rw [insertProp]
  by_cases hany : m.any (fun e => e.1 == k) = true
  · rw [if_pos hany]
    exact lookup_map_replace_self k v m hany
  · rw [if_neg hany]
    exact lookup_append_single_self k v m (bool_eq_false hany)

theorem insertProp_lookup_ne (m : List (String × PropValue)) (k : String) (v : PropValue)
    {k' : String} (h : k' ≠ k) :
    (insertProp m k v).lookup k' = m.lookup k' := by
  rw [insertProp]
  by_cases hany : m.any (fun e => e.1 == k) = true
  · rw [if_pos hany]
    exact lookup_map_replace_ne k v h m
  · rw [if_neg hany]
    exact lookup_append_single_ne k v h m

theorem keys_insertProp_any (m : List (String × PropValue)) (k : String) (v : PropValue)
    (h : m.any (fun e => e.1 == k) = true) :
    (insertProp m k v).map Prod.fst = m.map Prod.fst := by
  rw [insertProp, if_pos h, List.map_map]
  apply List.map_congr_left
  intro e _
  by_cases he : e.1 = k
  · simp [he]
  · simp [he]

theorem keys_insertProp_not (m : List (String × PropValue)) (k : String) (v : PropValue)
    (h : ¬ m.any (fun e => e.1 == k) = true) :
    (insertProp m k v).map Prod.fst = m.map Prod.fst ++ [k] := by
  rw [insertProp, if_neg h, List.map_append]
  rfl

theorem keys_insertProp_nodup (m : List (String × PropValue)) (k : String) (v : PropValue)
    (h : (m.map Prod.fst).Nodup) :
    ((insertProp m k v).map Prod.fst).Nodup := by
  by_cases hany : m.any (fun e => e.1 == k) = true
  · rw [keys_insertProp_any m k v hany]
    exact h
  · rw [keys_insertProp_not m k v hany]
    rw [List.nodup_append]
    refine ⟨h, List.nodup_singleton k, ?_⟩
    intro x hx hk
    rw [List.mem_singleton] at hk
    subst hk
    rcases List.mem_map.mp hx with ⟨e, he, hek⟩
    exact hany (List.any_eq_true.mpr ⟨e, he, by simp [hek]⟩)

theorem mem_keys_insertProp_left (m : List (String × PropValue)) (k : String) (v : PropValue)
    {k' : String} (h : k' ∈ m.map Prod.fst) :
    k' ∈ (insertProp m k v).map Prod.fst := by
  by_cases hany : m.any (fun e => e.1 == k) = true
  · rw [keys_insertProp_any m k v hany]
    exact h
  · rw [keys_insertProp_not m k v hany]
    exact List.mem_append_left _ h

theorem merge_props_cons (dflt : List (String × PropValue)) (kv : String × PropValue)
    (rest : List (String × PropValue)) :
    merge_props dflt (kv :: rest) = merge_props (insertProp dflt kv.1 kv.2) rest := rfl

theorem merge_props_lookup_absent :
    ∀ (props dflt : List (String × PropValue)) (k : String),
      k ∉ props.map Prod.fst →
      (merge_props dflt props).lookup k = dflt.lookup k := by
  intro props
  induction props with
  | nil => intro dflt k _; rfl
  | cons kv rest ih =>
    intro dflt k hk
    rw [List.map_cons, List.mem_cons] at hk
    push_neg at hk
    rw [merge_props_cons, ih _ k hk.2]
    exact insertProp_lookup_ne dflt kv.1 kv.2 hk.1

theorem merge_props_lookup_mem :
    ∀ (props dflt : List (String × PropValue)) (k : String),
      (props.map Prod.fst).Nodup → k ∈ props.map Prod.fst →
      (merge_props dflt props).lookup k = props.lookup k := by
  intro props
  induction props with
  | nil => intro _ k _ h; simp at h
  | cons kv rest ih =>
    intro dflt k hnd hk
    obtain ⟨k0, v0⟩ := kv
    rw [List.map_cons] at hnd
    obtain ⟨hh, ht⟩ := List.nodup_cons.mp hnd
    rw [merge_props_cons]
    by_cases hkk : k = k0
    · subst hkk
      rw [merge_props_lookup_absent rest _ k hh]
      rw [insertProp_lookup_self, lookup_cons_self]
    · have hkrest : k ∈ rest.map Prod.fst := by
        rw [List.map_cons] at hk
        rcases List.mem_cons.mp hk with h | h
        · exact absurd h hkk
        · exact h
      rw [ih _ k ht hkrest, lookup_cons_ne _ _ (Ne.symm hkk)]

theorem merge_props_keys_nodup :
    ∀ (props dflt : List (String × PropValue)),
      (dflt.map Prod.fst).Nodup → ((merge_props dflt props).map Prod.fst).Nodup := by
  intro props
  induction props with
  | nil => intro dflt h; exact h
  | cons kv rest ih =>
    intro dflt h
    rw [merge_props_cons]
    exact ih _ (keys_insertProp_nodup dflt kv.1 kv.2 h)

theorem lookup_eq_some_of_mem_keys {β : Type} :
    ∀ (m : List (String × β)) (k : String), k ∈ m.map Prod.fst →
      ∃ val, m.lookup k = some val := by
  intro m
  induction m with
  | nil => intro k h; simp at h
  | cons e rest ih =>
    intro k h
    obtain ⟨k0, v0⟩ := e
    by_cases hk : k = k0
    · subst hk
      exact ⟨v0, lookup_cons_self k v0 rest⟩
    · rw [lookup_cons_ne _ _ (Ne.symm hk)]
      apply ih
      rw [List.map_cons] at h
      rcases List.mem_cons.mp h with hcontra | hmem
      · exact absurd hcontra hk
      · exact hmem

theorem mem_keys_of_lookup_eq_some {β : Type} :
    ∀ (m : List (String × β)) (k : String) (val : β), m.lookup k = some val →
      k ∈ m.map Prod.fst := by
  intro m
  induction m with
  | nil => intro k val h; cases h
  | cons e rest ih =>
    intro k val h
    obtain ⟨k0, v0⟩ := e
    by_cases hk : k = k0
    · subst hk
      simp
    · rw [lookup_cons_ne _ _ (Ne.symm hk)] at h
      rw [List.map_cons]
      exact List.mem_cons_of_mem _ (ih k val h)

theorem countP_keys_eq_one (m : List (String × PropValue)) (k : String)
    (hnd : (m.map Prod.fst).Nodup) (hmem : k ∈ m.map Prod.fst) :
    m.countP (fun e => e.1 == k) = 1 := by
  have h1 : m.countP (fun e => e.1 == k) = (m.map Prod.fst).countP (fun x => x == k) :=
    (List.countP_map (fun x => x == k) Prod.fst m).symm
  rw [h1]
  exact List.count_eq_one_of_mem hnd hmem

/-- C2: a `ComponentRef` to a component found in the library renders as a
primitive element over `default_props` overlaid by the call-site props; on
every key collision the call-site value wins, and the merged map carries
exactly one binding for such a key, so exactly one attribute is emitted for
it. -/
theorem c2_component_merge (v : ViewJsx) (c : String)
    (props : List (String × PropValue)) (children : List Element) (ind : Nat)
    (ctx : Option (List (String × String))) (cd : ComponentDef)
    (hfound : v.component_defs.get c = some cd)
    (hndd : (cd.default_props.map Prod.fst).Nodup)
    (hndp : (props.map Prod.fst).Nodup) :
    render_element v (.componentRef c props children) ind ctx
      = render_node v cd.tag cd.class_name (merge_props cd.default_props props)
          children ind ctx
    ∧ ((merge_props cd.default_props props).map Prod.fst).Nodup
    ∧ ∀ k, k ∈ props.map Prod.fst →
        (merge_props cd.default_props props).lookup k = props.lookup k
        ∧ (merge_props cd.default_props props).countP (fun e => e.1 == k) = 1 := by
  refine ⟨by rw [render_element, hfound], merge_props_keys_nodup props cd.default_props hndd, ?_⟩
  intro k hk
  have hlook := merge_props_lookup_mem props cd.default_props k hndp hk
  refine ⟨hlook, ?_⟩
  obtain ⟨val, hval⟩ := lookup_eq_some_of_mem_keys props k hk
  have hmk : k ∈ (merge_props cd.default_props props).map Prod.fst :=
    mem_keys_of_lookup_eq_some _ k val (by rw [hlook]; exact hval)
  exact countP_keys_eq_one _ k (merge_props_keys_nodup props cd.default_props hndd) hmk

theorem c2_witness :
    (vBtn.component_defs.get "btn"
        = some ⟨"btn", "Button", some "btn-cls",
            [("size", .num 3), ("color", .str "red")], [], none, none⟩
    ∧ (([("size", PropValue.num 3), ("color", PropValue.str "red")].map
          Prod.fst).Nodup
    ∧ (([("size", PropValue.num 5)].map Prod.fst)).Nodup))
    ∧ (render_element vBtn (.componentRef "btn" [("size", .num 5)] []) 4 none
      = render_node vBtn "Button" (some "btn-cls")
          (merge_props [("size", .num 3), ("color", .str "red")] [("size", .num 5)])
          [] 4 none
    ∧ ((merge_props [("size", PropValue.num 3), ("color", PropValue.str "red")]
          [("size", PropValue.num 5)]).map Prod.fst).Nodup
    ∧ ∀ k, k ∈ [("size", PropValue.num 5)].map Prod.fst →
        (merge_props [("size", PropValue.num 3), ("color", PropValue.str "red")]
            [("size", PropValue.num 5)]).lookup k
          = [("size", PropValue.num 5)].lookup k
        ∧ (merge_props [("size", PropValue.num 3), ("color", PropValue.str "red")]
            [("size", PropValue.num 5)]).countP (fun e => e.1 == k) = 1) :=
  ⟨⟨rfl, by decide, by decide⟩,
   c2_component_merge vBtn "btn" [("size", .num 5)] [] 4 none
     ⟨"btn", "Button", some "btn-cls", [("size", .num 3), ("color", .str "red")],
      [], none, none⟩ rfl (by decide) (by decide)⟩

theorem hsInsert_mem (s : List String) (x y : String) :
    y ∈ hsInsert s x ↔ y ∈ s ∨ y = x := by
  rw [hsInsert]
  by_cases h : s.contains x = true
  · rw [if_pos h]
    constructor
    · exact Or.inl
    · rintro (hy | rfl)
      · exact hy
      · simpa using h
  · rw [if_neg h]
    simp

theorem hsInsert_nodup (s : List String) (x : String) (h : s.Nodup) :
    (hsInsert s x).Nodup := by
  rw [hsInsert]
  by_cases hc : s.contains x = true
  · rw [if_pos hc]
    exact h
  · rw [if_neg hc]
    rw [List.nodup_append]
    refine ⟨h, List.nodup_singleton x, ?_⟩
    intro y hy hx
    rw [List.mem_singleton] at hx
    subst hx
    exact hc (by simpa using hy)

theorem collect_props_assets_mem (props : List (String × PropValue)) :
    ∀ (acc : List String) (y : String),
      y ∈ collect_props_assets acc props ↔
        y ∈ acc ∨ y ∈ props.filterMap
          (fun kv => match kv.2 with | .asset n => some n | _ => none) := by
  induction props with
  | nil => intro acc y; simp [collect_props_assets]
  | cons kv rest ih =>
    intro acc y
    rw [collect_props_assets, List.foldl_cons,
      show List.foldl _ _ rest = collect_props_assets _ rest from rfl,
      List.filterMap_cons]
    cases kv with
    | mk k pv =>
      cases pv with
      | asset n =>
        rw [ih (hsInsert acc n) y]
        rw [hsInsert_mem]
        simp only [List.mem_cons]
        tauto
      | str s => rw [ih acc y]
      | num i => rw [ih acc y]
      | bool b => rw [ih acc y]
      | var nm => rw [ih acc y]
      | content nm => rw [ih acc y]
      | contentField nm => rw [ih acc y]

theorem collect_props_assets_nodup (props : List (String × PropValue)) :
    ∀ acc : List String, acc.Nodup → (collect_props_assets acc props).Nodup := by
  induction props with
  | nil => intro acc h; exact h
  | cons kv rest ih =>
    intro acc h
    rw [collect_props_assets, List.foldl_cons,
      show List.foldl _ _ rest = collect_props_assets _ rest from rfl]
    cases kv with
    | mk k pv =>
      cases pv with
      | asset n => exact ih _ (hsInsert_nodup acc n h)
      | str s => exact ih _ h
      | num i => exact ih _ h
      | bool b => exact ih _ h
      | var nm => exact ih _ h
      | content nm => exact ih _ h
      | contentField nm => exact ih _ h

mutual

theorem collect_refs_fst_mem (e : Element) (acc : List String × List String) (y : String) :
    y ∈ (collect_refs e acc).1 ↔ y ∈ acc.1 ∨ y ∈ asset_refs e := by
  cases e with
  | text s => simp [collect_refs, asset_refs]
  | node tag cn props children =>
    rw [collect_refs, asset_refs]
    rw [collect_refs_list_fst_mem children _ y]
    rw [collect_props_assets_mem props acc.1 y]
    rw [List.mem_append]
    tauto
  | componentRef c props children =>
    rw [collect_refs, asset_refs]
    rw [collect_refs_list_fst_mem children _ y]
    rw [collect_props_assets_mem props acc.1 y]
    rw [List.mem_append]
    tauto
  | contentList src template =>
    rw [collect_refs, asset_refs]
    exact collect_refs_fst_mem template acc y

theorem collect_refs_list_fst_mem (es : List Element) (acc : List String × List String)
    (y : String) :
    y ∈ (collect_refs_list es acc).1 ↔ y ∈ acc.1 ∨ y ∈ asset_refs_list es := by
  cases es with
  | nil => simp [collect_refs_list, asset_refs_list]
  | cons e rest =>
    rw [collect_refs_list, asset_refs_list]
    rw [collect_refs_list_fst_mem rest _ y]
    rw [collect_refs_fst_mem e acc y]
    rw [List.mem_append]
    tauto

end

mutual

theorem collect_refs_fst_nodup (e : Element) (acc : List String × List String)
    (h : acc.1.Nodup) : ((collect_refs e acc).1).Nodup := by
  cases e with
  | text s => simpa [collect_refs] using h
  | node tag cn props children =>
    rw [collect_refs]
    exact collect_refs_list_fst_nodup children _ (collect_props_assets_nodup props _ h)
  | componentRef c props children =>
    rw [collect_refs]
    exact collect_refs_list_fst_nodup children _ (collect_props_assets_nodup props _ h)
  | contentList src template =>
    rw [collect_refs]
    exact collect_refs_fst_nodup template acc h

theorem collect_refs_list_fst_nodup (es : List Element) (acc : List String × List String)
    (h : acc.1.Nodup) : ((collect_refs_list es acc).1).Nodup := by
  cases es with
  | nil => simpa [collect_refs_list] using h
  | cons e rest =>
    rw [collect_refs_list]
    exact collect_refs_list_fst_nodup rest _ (collect_refs_fst_nodup e acc h)

end

theorem collect_asset_refs_mem (tree : Element) (y : String) :
    y ∈ collect_asset_refs tree ↔ y ∈ asset_refs tree := by
  rw [collect_asset_refs, collect_refs_fst_mem tree ([], []) y]
  simp

theorem collect_asset_refs_nodup (tree : Element) : (collect_asset_refs tree).Nodup :=
  collect_refs_fst_nodup tree ([], []) List.nodup_nil

theorem asset_import_entry_fst (v : ViewJsx) (x : String) (e : String × String)
    (h : asset_import_entry? v x = some e) : e.1 = x := by
  rw [asset_import_entry?] at h
  cases hv : v.asset_defs.get x with
  | none =>
    simp only [hv] at h
    cases h
  | some a =>
    simp only [hv] at h
    cases hk : a.kind with
    | image =>
      simp only [hk] at h
      cases hp : a.path with
      | none =>
        simp only [hp] at h
        cases h
      | some p =>
        simp only [hp] at h
        by_cases hext : (startsWith p "http://" || startsWith p "https://") = true
        · rw [if_pos hext] at h
          cases h
        · rw [if_neg hext] at h
          cases h
          rfl
    | youtube =>
      simp only [hk] at h
      cases h
    | video =>
      simp only [hk] at h
      cases h
    | audio =>
      simp only [hk] at h
      cases h

theorem countP_filterMap_entries (v : ViewJsx) (name : String) :
    ∀ l : List String, l.Nodup →
      (l.filterMap (asset_import_entry? v)).countP (fun e => e.1 == name) =
        if name ∈ l ∧ (asset_import_entry? v name).isSome = true then 1 else 0 := by
  intro l
  induction l with
  | nil => intro _; simp
  | cons x xs ih =>
    intro hnd
    obtain ⟨hx, ht⟩ := List.nodup_cons.mp hnd
    rw [List.filterMap_cons]
    cases hfx : asset_import_entry? v x with
    | none =>
      rw [ih ht]
      by_cases hxn : name = x
      · subst hxn
        simp [hfx, hx, List.mem_cons]
      · simp [List.mem_cons, hxn]
    | some e =>
      have hefst : e.1 = x := asset_import_entry_fst v x e hfx
      rw [List.countP_cons, ih ht]
      by_cases hxn : name = x
      · subst hxn
        simp [hefst, hx, hfx, List.mem_cons]
      · have hne : (e.1 == name) = false := by
          rw [hefst]
          exact beq_eq_false_iff_ne.mpr (Ne.symm hxn)
        simp [hne, List.mem_cons, hxn]

/-- C5: for every page tree, exactly one asset import line is emitted per
distinct referenced asset name that resolves to an `Image` with a local
(non-`http(s)`) path, even when the name is referenced from several nodes;
names that do not so resolve (external-URL images, non-`Image` kinds,
unresolved names) generate no import line. -/
theorem c5_asset_imports (v : ViewJsx) (name : String) :
    (name ∈ asset_refs v.proto.tree → (asset_import_entry? v name).isSome = true →
      (asset_import_entries v).countP (fun e => e.1 == name) = 1)
    ∧ (asset_import_entry? v name = none →
      (asset_import_entries v).countP (fun e => e.1 == name) = 0) := by
  constructor
  · intro hmem hsome
    rw [asset_import_entries,
      countP_filterMap_entries v name _ (collect_asset_refs_nodup _)]
    rw [if_pos ⟨(collect_asset_refs_mem _ _).mpr hmem, hsome⟩]
  · intro hnone
    rw [asset_import_entries,
      countP_filterMap_entries v name _ (collect_asset_refs_nodup _)]
    rw [if_neg]
    intro hc
    rw [hnone] at hc
    exact absurd hc.2 (by simp)

theorem c5_witness :
    (("logo" ∈ asset_refs vAssets.proto.tree
      ∧ (asset_import_entry? vAssets "logo").isSome = true)
    ∧ asset_import_entry? vAssets "ext" = none
    ∧ asset_import_entry? vAssets "tube" = none
    ∧ asset_import_entry? vAssets "ghost" = none)
    ∧ ((asset_import_entries vAssets).countP (fun e => e.1 == "logo") = 1
    ∧ (asset_import_entries vAssets).countP (fun e => e.1 == "ext") = 0
    ∧ (asset_import_entries vAssets).countP (fun e => e.1 == "tube") = 0
    ∧ (asset_import_entries vAssets).countP (fun e => e.1 == "ghost") = 0) :=
  ⟨⟨⟨by decide, by decide⟩, by decide, by decide, by decide⟩,
   ⟨(c5_asset_imports vAssets "logo").1 (by decide) (by decide),
    (c5_asset_imports vAssets "ext").2 (by decide),
    (c5_asset_imports vAssets "tube").2 (by decide),
    (c5_asset_imports vAssets "ghost").2 (by decide)⟩⟩

end Degen
